import Mathlib

/-!
Shallow embedding of the drag-and-drop workflow builder and the
experiment execution engine of the my-draggable-svelte-app repository
(src/lib/components/ScienceExperimentWorkbench.svelte and
src/lib/components/WorkflowBuilder.svelte).

Numbers (progress percentages, estimated durations) are modelled as
rationals.  Wherever the source reads the wall clock (Date.now,
toLocaleTimeString) the resulting human-readable strings are taken as
parameters of the operation, since their contents never feed back into
control flow.  Timer handles (the phaseIntervals record) are modelled as
the list of phase ids that currently own a registered interval.
-/

/-- Execution status of an experiment phase (type PhaseStatus). -/
inductive PhaseStatus where
  | pending
  | running
  | paused
  | completed
  | failed
deriving DecidableEq

/-- A step instance on the canvas (interface ExperimentPhase). -/
structure Phase where
  id : String
  type : String
  label : String
  icon : String
  color : String
  text : String
  status : PhaseStatus
  progress : ℚ
  estimatedDuration : ℚ
  actualDuration : Option String
  logs : List String
  canBeRun : Bool
deriving DecidableEq

/-- A palette template (interface PaletteBlock). -/
structure PaletteBlock where
  type : String
  label : String
  icon : String
  color : String
  defaultText : String
  estimatedDuration : ℚ
deriving DecidableEq

/-- The derived overall progress record (interface OverallProgress). -/
structure OverallProgress where
  averageProgress : ℚ
  completedCount : ℕ
  totalCount : ℕ
  isComplete : Bool
deriving DecidableEq

/-- JavaScript Math.round: nearest integer, halves toward positive infinity. -/
def mathRound (q : ℚ) : ℚ := ((⌊q + 1 / 2⌋ : ℤ) : ℚ)

/-- The reduce that sums all progress values in overallExperimentProgress.
The source writes (phase.progress or 0), which is the identity on numbers. -/
def totalProgress (phases : List Phase) : ℚ :=
  phases.foldl (fun sum p => sum + p.progress) 0

/-- The derived store overallExperimentProgress of
ScienceExperimentWorkbench.svelte. -/
def overallExperimentProgress (phases : List Phase) : OverallProgress :=
  if phases.length = 0 then
    { averageProgress := 0, completedCount := 0, totalCount := 0, isComplete := false }
  else
    let avgProgress := totalProgress phases / (phases.length : ℚ)
    let completedPhases :=
      (phases.filter (fun p => decide (p.status = PhaseStatus.completed))).length
    let totalPhases := phases.length
    { averageProgress := mathRound avgProgress
      completedCount := completedPhases
      totalCount := totalPhases
      isComplete := decide (completedPhases = totalPhases) && decide (0 < totalPhases) }

/-- JS Array.prototype.splice with delete count 1: remove element at index i. -/
def spliceRemove {α : Type} (i : ℕ) (l : List α) : List α :=
  l.take i ++ l.drop (i + 1)

/-- JS Array.prototype.splice with delete count 0: insert an element at index i. -/
def spliceInsert {α : Type} (i : ℕ) (a : α) (l : List α) : List α :=
  l.take i ++ a :: l.drop i

/-- The reorder performed by handlePhaseDrop of
ScienceExperimentWorkbench.svelte: after the source equals target guard, the
store update removes the dragged phase, re-finds the target index in the
reduced list and inserts the dragged phase there (the written offset is 0 in
both drag directions), pushing to the end if the target is no longer found. -/
def handlePhaseDrop (sourcePhaseId targetPhaseId : String)
    (phases : List Phase) : List Phase :=
  if sourcePhaseId = targetPhaseId then phases
  else
    match phases.findIdx? (fun p => decide (p.id = sourcePhaseId)),
        phases.findIdx? (fun p => decide (p.id = targetPhaseId)) with
    | some sourceIndex, some _targetIndex =>
      match phases.get? sourceIndex with
      | some draggedPhase =>
        let rest := spliceRemove sourceIndex phases
        match rest.findIdx? (fun p => decide (p.id = targetPhaseId)) with
        | some newTargetIndex => spliceInsert newTargetIndex draggedPhase rest
        | none => rest ++ [draggedPhase]
      | none => phases
    | _, _ => phases

/-- A workflow step of WorkflowBuilder.svelte (interface WorkflowStep). -/
structure WorkflowStep where
  id : String
  type : String
  label : String
  icon : String
  color : String
  text : String
deriving DecidableEq

/-- A workflow palette template of WorkflowBuilder.svelte. -/
structure WorkflowBlock where
  type : String
  label : String
  icon : String
  color : String
  defaultText : String
deriving DecidableEq

/-- The reorder performed by handleWorkflowItemDrop of WorkflowBuilder.svelte:
it removes the dragged step and then inserts it at the target index computed
BEFORE the removal (the original targetIndex is not re-found). -/
def handleWorkflowItemDrop (sourceItemId targetItemId : String)
    (steps : List WorkflowStep) : List WorkflowStep :=
  if sourceItemId = targetItemId then steps
  else
    match steps.findIdx? (fun s => decide (s.id = sourceItemId)),
        steps.findIdx? (fun s => decide (s.id = targetItemId)) with
    | some sourceIndex, some targetIndex =>
      match steps.get? sourceIndex with
      | some draggedStep =>
        spliceInsert targetIndex draggedStep (spliceRemove sourceIndex steps)
      | none => steps
    | _, _ => steps

/-- The new phase built in handleCanvasDrop from a palette block.  The JS
falsy checks (defaultText or ..., estimatedDuration or 10) are modelled by
comparisons with the empty string and with 0. -/
def mkNewPhase (newId : String) (block : PaletteBlock) : Phase :=
  { id := newId
    type := block.type
    label := block.label
    icon := block.icon
    color := block.color
    text := if block.defaultText = "" then "New " ++ block.label ++ " Phase"
      else block.defaultText
    status := PhaseStatus.pending
    progress := 0
    estimatedDuration := if block.estimatedDuration = 0 then 10
      else block.estimatedDuration
    actualDuration := none
    logs := []
    canBeRun := true }

/-- The in-flight drag session of ScienceExperimentWorkbench.svelte
(type DraggingItem, with null modelled by Option). -/
inductive DraggingItem where
  | paletteItem (data : PaletteBlock)
  | workflowItem (id : Option String) (data : Phase)
deriving DecidableEq

/-- handleCanvasDrop of ScienceExperimentWorkbench.svelte, restricted to its
effect on the phase list: appends a fresh phase when the session drags a
palette item, otherwise leaves the list alone. -/
def handleCanvasDrop (draggingItem : Option DraggingItem) (newId : String)
    (phases : List Phase) : List Phase :=
  match draggingItem with
  | some (DraggingItem.paletteItem block) => phases ++ [mkNewPhase newId block]
  | _ => phases

/-- The new step built in handleCanvasDrop of WorkflowBuilder.svelte. -/
def mkNewStep (newId : String) (block : WorkflowBlock) : WorkflowStep :=
  { id := newId
    type := block.type
    label := block.label
    icon := block.icon
    color := block.color
    text := if block.defaultText = "" then "New " ++ block.label ++ " Step"
      else block.defaultText }

/-- The drag session of WorkflowBuilder.svelte. -/
inductive WBDraggingItem where
  | paletteItem (data : WorkflowBlock)
  | workflowItem (id : Option String) (data : WorkflowStep)
deriving DecidableEq

/-- handleCanvasDrop of WorkflowBuilder.svelte, restricted to its effect on
the step list. -/
def handleWBCanvasDrop (draggingItem : Option WBDraggingItem) (newId : String)
    (steps : List WorkflowStep) : List WorkflowStep :=
  match draggingItem with
  | some (WBDraggingItem.paletteItem block) => steps ++ [mkNewStep newId block]
  | _ => steps

/-- steps = estimatedDuration * (1000 / 200) in togglePhaseExecution. -/
def simSteps (estimatedDuration : ℚ) : ℚ := estimatedDuration * (1000 / 200)

/-- progressIncrement = steps > 0 ? 100 / steps : 100. -/
def progressIncrement (estimatedDuration : ℚ) : ℚ :=
  if 0 < simSteps estimatedDuration then 100 / simSteps estimatedDuration else 100

/-- One simulation tick applied to one phase: the body of the map inside
the setInterval callback of togglePhaseExecution.  The strings durStr and
timeStr stand for the wall-clock derived duration and timestamp. -/
def tickPhaseFun (pid : String) (inc : ℚ) (durStr timeStr : String)
    (q : Phase) : Phase :=
  if q.id = pid ∧ q.status = PhaseStatus.running then
    let newProgress := min 100 (q.progress + inc)
    if 100 ≤ newProgress then
      { q with
        progress := 100
        status := PhaseStatus.completed
        actualDuration := some (durStr ++ "s")
        logs := q.logs ++
          ["Phase completed in " ++ durStr ++ "s at " ++ timeStr] }
    else
      { q with progress := newProgress }
  else q

/-- The phase-list update performed by one firing of the interval callback. -/
def tickPhases (pid : String) (inc : ℚ) (durStr timeStr : String)
    (phases : List Phase) : List Phase :=
  phases.map (tickPhaseFun pid inc durStr timeStr)

/-- Whether a firing of the interval callback for pid reaches 100 and hence
clears its own interval (the clearInterval inside the callback). -/
def tickCompletes (pid : String) (inc : ℚ) (phases : List Phase) : Bool :=
  phases.any (fun q =>
    decide (q.id = pid ∧ q.status = PhaseStatus.running ∧
      100 ≤ min 100 (q.progress + inc)))

/-- togglePhaseExecution applied to one phase: the body of the map inside
the store update.  timeStr stands for the toLocaleTimeString result. -/
def togglePhaseFun (pid timeStr : String) (p : Phase) : Phase :=
  if p.id = pid then
    match p.status with
    | PhaseStatus.running => { p with status := PhaseStatus.paused }
    | PhaseStatus.pending | PhaseStatus.paused | PhaseStatus.failed =>
      { p with
        status := PhaseStatus.running
        progress := if p.status = PhaseStatus.paused then p.progress else 0
        logs := p.logs ++ ["Phase execution started at " ++ timeStr] }
    | PhaseStatus.completed =>
      { p with
        status := PhaseStatus.pending
        progress := 0
        actualDuration := none
        logs := ["Phase reset at " ++ timeStr] }
  else p

/-- The phase-list update performed by togglePhaseExecution. -/
def togglePhases (pid timeStr : String) (phases : List Phase) : List Phase :=
  phases.map (togglePhaseFun pid timeStr)

/-- Engine state: the phase list together with the ids holding a registered
interval (the keys of the phaseIntervals record). -/
structure EngineState where
  phases : List Phase
  timers : List String
deriving DecidableEq

/-- Timer bookkeeping of togglePhaseExecution: pausing clears and deletes the
interval, starting or resuming clears any stale interval and registers a new
one, toggling a completed phase (reset) touches no interval.  The branch is
selected by the status the addressed phase has before the toggle. -/
def toggleTimers (pid : String) (phases : List Phase)
    (timers : List String) : List String :=
  match phases.find? (fun p => decide (p.id = pid)) with
  | some p =>
    match p.status with
    | PhaseStatus.running => timers.filter (fun i => decide (i ≠ pid))
    | PhaseStatus.pending | PhaseStatus.paused | PhaseStatus.failed =>
      (timers.filter (fun i => decide (i ≠ pid))) ++ [pid]
    | PhaseStatus.completed => timers
  | none => timers

/-- togglePhaseExecution on the whole engine state. -/
def toggleE (pid timeStr : String) (e : EngineState) : EngineState :=
  { phases := togglePhases pid timeStr e.phases
    timers := toggleTimers pid e.phases e.timers }

/-- One firing of the registered interval for pid.  It can only fire while
the interval is registered; the increment was captured at registration from
the phase estimatedDuration, which no operation ever mutates, so it is
recovered here by lookup. -/
def tickE (pid durStr timeStr : String) (e : EngineState) : EngineState :=
  if pid ∈ e.timers then
    match e.phases.find? (fun p => decide (p.id = pid)) with
    | some p =>
      let inc := progressIncrement p.estimatedDuration
      { phases := tickPhases pid inc durStr timeStr e.phases
        timers := if tickCompletes pid inc e.phases then
            e.timers.filter (fun i => decide (i ≠ pid))
          else e.timers }
    | none => e
  else e

/-- removePhase of ScienceExperimentWorkbench.svelte: filters the phase out
of the list and clears and deletes its interval if one is registered. -/
def removePhaseE (pid : String) (e : EngineState) : EngineState :=
  { phases := e.phases.filter (fun p => decide (p.id ≠ pid))
    timers := e.timers.filter (fun i => decide (i ≠ pid)) }

/-- updatePhaseText applied to one phase. -/
def updatePhaseTextFun (pid newText : String) (p : Phase) : Phase :=
  if p.id = pid then { p with text := newText } else p

/-- updatePhaseText of ScienceExperimentWorkbench.svelte. -/
def updatePhaseText (pid newText : String) (phases : List Phase) : List Phase :=
  phases.map (updatePhaseTextFun pid newText)

/-- The engine-facing operations of the workbench. -/
inductive Event where
  | append (block : PaletteBlock) (newId : String)
  | toggle (pid : String) (timeStr : String)
  | tick (pid : String) (durStr timeStr : String)
  | remove (pid : String)
  | reorder (src tgt : String)
  | editText (pid : String) (newText : String)

/-- Apply one operation to the engine state. -/
def applyEvent (e : Event) (s : EngineState) : EngineState :=
  match e with
  | Event.append block newId =>
    { s with phases := handleCanvasDrop (some (DraggingItem.paletteItem block)) newId s.phases }
  | Event.toggle pid t => toggleE pid t s
  | Event.tick pid d t => tickE pid d t s
  | Event.remove pid => removePhaseE pid s
  | Event.reorder src tgt => { s with phases := handlePhaseDrop src tgt s.phases }
  | Event.editText pid txt => { s with phases := updatePhaseText pid txt s.phases }

/-- Run a sequence of operations. -/
def runEvents (es : List Event) (s : EngineState) : EngineState :=
  es.foldl (fun s e => applyEvent e s) s

/-- The invariant of claim C5: progress is 100 exactly on completed phases. -/
def ProgressStatusInv (phases : List Phase) : Prop :=
  ∀ p ∈ phases, p.progress = 100 ↔ p.status = PhaseStatus.completed

/-- No phase and no timer mention the given id. -/
def IdFree (pid : String) (s : EngineState) : Prop :=
  (∀ p ∈ s.phases, p.id ≠ pid) ∧ pid ∉ s.timers

/-- The snapshot taken at the top of runAllPhases: ids of the phases that are
pending or failed at call time, in sequence order. -/
def runAllSnapshot (phases : List Phase) : List String :=
  (phases.filter (fun p =>
    decide (p.status = PhaseStatus.pending ∨ p.status = PhaseStatus.failed))).map
    (fun p => p.id)

/-- Current status of the phase with the given id, as runAllPhases reads it
with find. -/
def statusOf (pid : String) (phases : List Phase) : Option PhaseStatus :=
  (phases.find? (fun p => decide (p.id = pid))).map (fun p => p.status)

/-- Orchestrator state of an in-flight runAllPhases call: the not yet
processed snapshot ids and the id currently awaited (via the promise that
resolves once that phase is completed or failed). -/
structure RunAllState where
  queue : List String
  awaiting : Option String
deriving DecidableEq

/-- Engine plus an in-flight runAllPhases call. -/
structure SysState where
  engine : EngineState
  orch : RunAllState
deriving DecidableEq

/-- One scheduling step of runAllPhases.  While awaiting a phase it resumes
only when that phase reads completed or failed.  Otherwise it takes the next
snapshot id, re-checks its current status, toggles it and awaits it if the
status is still pending or failed, and skips it otherwise. -/
def orchStep (t : String) (s : SysState) : SysState :=
  match s.orch.awaiting with
  | some i =>
    match statusOf i s.engine.phases with
    | some PhaseStatus.completed => { s with orch := { s.orch with awaiting := none } }
    | some PhaseStatus.failed => { s with orch := { s.orch with awaiting := none } }
    | _ => s
  | none =>
    match s.orch.queue with
    | [] => s
    | i :: rest =>
      match statusOf i s.engine.phases with
      | some PhaseStatus.pending =>
        { engine := toggleE i t s.engine
          orch := { queue := rest, awaiting := some i } }
      | some PhaseStatus.failed =>
        { engine := toggleE i t s.engine
          orch := { queue := rest, awaiting := some i } }
      | _ => { s with orch := { queue := rest, awaiting := none } }

/-- The events that can occur while a runAllPhases call is in flight and the
user performs no other gesture: orchestrator progress and interval ticks. -/
inductive RunEvent where
  | orch (t : String)
  | tick (pid : String) (durStr timeStr : String)

/-- Apply one such event. -/
def applyRunEvent (e : RunEvent) (s : SysState) : SysState :=
  match e with
  | RunEvent.orch t => orchStep t s
  | RunEvent.tick pid d t => { s with engine := tickE pid d t s.engine }

/-- Run a sequence of such events. -/
def runSys (es : List RunEvent) (s : SysState) : SysState :=
  es.foldl (fun s e => applyRunEvent e s) s

/-- State right after runAllPhases took its snapshot. -/
def runAllInit (e : EngineState) : SysState :=
  { engine := e, orch := { queue := runAllSnapshot e.phases, awaiting := none } }

/-- Inductive invariant for claim C6 on a two-phase sequence with ids a, b:
the shape of the orchestrator state determines enough of both statuses to
rule out b running before a has finished. -/
def C6Inv (a b : String) (s : SysState) : Prop :=
  ∃ pa pb, s.engine.phases = [pa, pb] ∧ pa.id = a ∧ pb.id = b ∧
    ((s.orch.queue = [a, b] ∧ s.orch.awaiting = none ∧
        pa.status = PhaseStatus.pending ∧ pb.status = PhaseStatus.pending) ∨
     (s.orch.queue = [b] ∧ s.orch.awaiting = some a ∧
        pb.status = PhaseStatus.pending) ∨
     (s.orch.queue = [b] ∧ s.orch.awaiting = none ∧
        (pa.status = PhaseStatus.completed ∨ pa.status = PhaseStatus.failed) ∧
        pb.status = PhaseStatus.pending) ∨
     (s.orch.queue = [] ∧ s.orch.awaiting = some b ∧
        (pa.status = PhaseStatus.completed ∨ pa.status = PhaseStatus.failed)) ∨
     (s.orch.queue = [] ∧ s.orch.awaiting = none ∧
        (pa.status = PhaseStatus.completed ∨ pa.status = PhaseStatus.failed)))

/-! ## Basic lemmas about the per-phase operations -/

theorem togglePhaseFun_noop_of_ne {pid t : String} {p : Phase}
    (h : p.id ≠ pid) : togglePhaseFun pid t p = p := by
  simp [togglePhaseFun, h]

theorem updatePhaseTextFun_noop_of_ne {pid txt : String} {p : Phase}
    (h : p.id ≠ pid) : updatePhaseTextFun pid txt p = p := by
  simp [updatePhaseTextFun, h]

theorem tickPhaseFun_noop_of_ne {pid : String} {inc : ℚ} {d t : String}
    {q : Phase} (h : q.id ≠ pid) : tickPhaseFun pid inc d t q = q := by
  simp [tickPhaseFun, h]

theorem tickPhaseFun_noop_of_not_running {pid : String} {inc : ℚ}
    {d t : String} {q : Phase} (h : q.status ≠ PhaseStatus.running) :
    tickPhaseFun pid inc d t q = q := by
  simp [tickPhaseFun, h]

theorem togglePhaseFun_id (pid t : String) (p : Phase) :
    (togglePhaseFun pid t p).id = p.id := by
  unfold togglePhaseFun
  split
  · cases hs : p.status <;> simp
  · rfl

theorem tickPhaseFun_id (pid : String) (inc : ℚ) (d t : String) (q : Phase) :
    (tickPhaseFun pid inc d t q).id = q.id := by
  unfold tickPhaseFun
  split
  · dsimp only
    split <;> rfl
  · rfl

theorem updatePhaseTextFun_id (pid txt : String) (p : Phase) :
    (updatePhaseTextFun pid txt p).id = p.id := by
  unfold updatePhaseTextFun
  split <;> rfl

/-! ## Claim C8: drop on the bare canvas -/

/-- C8: a drop on the bare canvas appends a new pending step built from the
dragged template exactly when the drag session comes from the catalog; a
sequence-sourced (or absent) session leaves the sequence unchanged.  Both the
workbench and the WorkflowBuilder variants are covered. -/
theorem canvas_drop_spec (phases : List Phase) (steps : List WorkflowStep)
    (d : Option DraggingItem) (d2 : Option WBDraggingItem) (newId : String) :
    (∀ b, d = some (DraggingItem.paletteItem b) →
      handleCanvasDrop d newId phases = phases ++ [mkNewPhase newId b] ∧
      (handleCanvasDrop d newId phases).length = phases.length + 1 ∧
      (mkNewPhase newId b).status = PhaseStatus.pending ∧
      (mkNewPhase newId b).progress = 0 ∧
      (mkNewPhase newId b).logs = [] ∧
      (mkNewPhase newId b).canBeRun = true ∧
      (mkNewPhase newId b).id = newId ∧
      (mkNewPhase newId b).type = b.type ∧
      (mkNewPhase newId b).label = b.label ∧
      (mkNewPhase newId b).icon = b.icon ∧
      (mkNewPhase newId b).color = b.color ∧
      (b.defaultText ≠ "" → (mkNewPhase newId b).text = b.defaultText) ∧
      (b.estimatedDuration ≠ 0 →
        (mkNewPhase newId b).estimatedDuration = b.estimatedDuration)) ∧
    (∀ i dp, d = some (DraggingItem.workflowItem i dp) →
      handleCanvasDrop d newId phases = phases) ∧
    (d = none → handleCanvasDrop d newId phases = phases) ∧
    (∀ b, d2 = some (WBDraggingItem.paletteItem b) →
      handleWBCanvasDrop d2 newId steps = steps ++ [mkNewStep newId b]) ∧
    (∀ i dp, d2 = some (WBDraggingItem.workflowItem i dp) →
      handleWBCanvasDrop d2 newId steps = steps) := by
  refine ⟨?_, ?_, ?_, ?_, ?_⟩
  · rintro b rfl
    refine ⟨rfl, by simp [handleCanvasDrop], rfl, rfl, rfl, rfl, rfl, rfl, rfl, rfl, rfl,
      ?_, ?_⟩
    · intro h
      simp [mkNewPhase, h]
    · intro h
      simp [mkNewPhase, h]
  · rintro i dp rfl
    rfl
  · rintro rfl
    rfl
  · rintro b rfl
    rfl
  · rintro i dp rfl
    rfl

/-- Witness for C8 at a concrete catalog block and a concrete sequence
session. -/
theorem canvas_drop_spec_witness :
    handleCanvasDrop
        (some (DraggingItem.paletteItem ⟨"T", "L", "I", "C", "D", 7⟩)) "n" [] =
      [mkNewPhase "n" ⟨"T", "L", "I", "C", "D", 7⟩] ∧
    (mkNewPhase "n" (⟨"T", "L", "I", "C", "D", 7⟩ : PaletteBlock)).status =
      PhaseStatus.pending ∧
    handleWBCanvasDrop
        (some (WBDraggingItem.workflowItem (some "i")
          ⟨"i", "t", "l", "ic", "c", "x"⟩)) "n" [] = [] := by
  refine ⟨?_, ?_, ?_⟩
  · exact ((canvas_drop_spec [] [] _ none "n").1 _ rfl).1
  · exact ((canvas_drop_spec [] [] (some (DraggingItem.paletteItem ⟨"T", "L", "I", "C", "D", 7⟩)) none "n").1 _ rfl).2.2.1
  · exact (canvas_drop_spec [] [] none _ "n").2.2.2.2 _ _ rfl

/-! ## Claim C9: reorder no-op cases -/

/-- C9: dropping an item onto itself, and a reorder where either the source
id or the target id is absent from the sequence, leave the sequence unchanged
by value, in both the workbench and the WorkflowBuilder variants. -/
theorem move_before_noop (phases : List Phase) (steps : List WorkflowStep)
    (src tgt : String) :
    handlePhaseDrop tgt tgt phases = phases ∧
    handleWorkflowItemDrop tgt tgt steps = steps ∧
    ((∀ p ∈ phases, p.id ≠ src) ∨ (∀ p ∈ phases, p.id ≠ tgt) →
      handlePhaseDrop src tgt phases = phases) ∧
    ((∀ s ∈ steps, s.id ≠ src) ∨ (∀ s ∈ steps, s.id ≠ tgt) →
      handleWorkflowItemDrop src tgt steps = steps) := by
  refine ⟨by simp [handlePhaseDrop], by simp [handleWorkflowItemDrop], ?_, ?_⟩
  · intro h
    unfold handlePhaseDrop
    split
    · rfl
    rcases h with h | h
    · rw [show phases.findIdx? (fun p => decide (p.id = src)) = none from
        List.findIdx?_eq_none_iff.mpr (by intro x hx; simpa using h x hx)]
    · rw [show phases.findIdx? (fun p => decide (p.id = tgt)) = none from
        List.findIdx?_eq_none_iff.mpr (by intro x hx; simpa using h x hx)]
      cases phases.findIdx? (fun p => decide (p.id = src)) <;> rfl
  · intro h
    unfold handleWorkflowItemDrop
    split
    · rfl
    rcases h with h | h
    · rw [show steps.findIdx? (fun s => decide (s.id = src)) = none from
        List.findIdx?_eq_none_iff.mpr (by intro x hx; simpa using h x hx)]
    · rw [show steps.findIdx? (fun s => decide (s.id = tgt)) = none from
        List.findIdx?_eq_none_iff.mpr (by intro x hx; simpa using h x hx)]
      cases steps.findIdx? (fun s => decide (s.id = src)) <;> rfl

/-- Witness for C9: a self drop and an absent-source drop on a concrete
one-element sequence. -/
theorem move_before_noop_witness :
    handlePhaseDrop "a" "a"
        [⟨"a", "T", "L", "I", "C", "x", PhaseStatus.pending, 0, 10, none, [], true⟩] =
      [⟨"a", "T", "L", "I", "C", "x", PhaseStatus.pending, 0, 10, none, [], true⟩] ∧
    handlePhaseDrop "z" "a"
        [⟨"a", "T", "L", "I", "C", "x", PhaseStatus.pending, 0, 10, none, [], true⟩] =
      [⟨"a", "T", "L", "I", "C", "x", PhaseStatus.pending, 0, 10, none, [], true⟩] := by
  constructor
  · exact (move_before_noop _ [] "a" "a").1
  · exact (move_before_noop _ [] "z" "a").2.2.1 (Or.inl (by decide))

/-! ## Claim C10: frame effects of the single-id operations -/

/-- C10: toggling, editing the description of, or removing one step leaves
every step with a different id unchanged in value, and addressing an id that
is absent from the sequence leaves the whole sequence unchanged by value. -/
theorem frame_single_id_ops (phases : List Phase) (tms : List String)
    (pid t txt : String) :
    (∀ p ∈ phases, p.id ≠ pid →
      togglePhaseFun pid t p = p ∧ updatePhaseTextFun pid txt p = p ∧
      p ∈ (removePhaseE pid ⟨phases, tms⟩).phases) ∧
    ((∀ p ∈ phases, p.id ≠ pid) →
      togglePhases pid t phases = phases ∧
      updatePhaseText pid txt phases = phases ∧
      (removePhaseE pid ⟨phases, tms⟩).phases = phases) := by
  constructor
  · intro p hp hne
    exact ⟨togglePhaseFun_noop_of_ne hne, updatePhaseTextFun_noop_of_ne hne,
      List.mem_filter.mpr ⟨hp, by simpa using hne⟩⟩
  · intro h
    refine ⟨?_, ?_, ?_⟩
    · exact (List.map_congr_left fun p hp =>
        togglePhaseFun_noop_of_ne (h p hp)).trans (List.map_id _)
    · exact (List.map_congr_left fun p hp =>
        updatePhaseTextFun_noop_of_ne (h p hp)).trans (List.map_id _)
    · exact List.filter_eq_self.mpr fun p hp => by simpa using h p hp

/-- Witness for C10 on a concrete two-step sequence addressing the first id,
and on an absent id. -/
theorem frame_single_id_ops_witness :
    togglePhaseFun "a" "t"
        ⟨"b", "T", "L", "I", "C", "x", PhaseStatus.running, 40, 10, none, [], true⟩ =
      ⟨"b", "T", "L", "I", "C", "x", PhaseStatus.running, 40, 10, none, [], true⟩ ∧
    togglePhases "z" "t"
        [⟨"b", "T", "L", "I", "C", "x", PhaseStatus.running, 40, 10, none, [], true⟩] =
      [⟨"b", "T", "L", "I", "C", "x", PhaseStatus.running, 40, 10, none, [], true⟩] := by
  constructor
  · exact ((frame_single_id_ops
      [⟨"b", "T", "L", "I", "C", "x", PhaseStatus.running, 40, 10, none, [], true⟩]
      [] "a" "t" "u").1 _ (by simp) (by decide)).1
  · exact ((frame_single_id_ops
      [⟨"b", "T", "L", "I", "C", "x", PhaseStatus.running, 40, 10, none, [], true⟩]
      [] "z" "t" "u").2 (by decide)).1

/-! ## Claim C3: the aggregate progress projection -/

theorem totalProgress_eq_sum (phases : List Phase) :
    totalProgress phases = (phases.map (fun p => p.progress)).sum := by
  have aux : ∀ (l : List Phase) (a : ℚ),
      l.foldl (fun sum p => sum + p.progress) a = a + (l.map (fun p => p.progress)).sum := by
    intro l
    induction l with
    | nil => intro a; simp
    | cons p l ih => intro a; simp [ih, add_assoc]
  simpa using aux phases 0

/-- C3 counterexample: the reported averageProgress is the rounded mean, not
the arithmetic mean.  On two steps with progresses 0 and 1 the arithmetic
mean is 1/2 but the projection reports 1. -/
theorem overall_progress_mean_cex :
    (overallExperimentProgress
        [⟨"a", "T", "L", "I", "C", "x", PhaseStatus.pending, 0, 10, none, [], true⟩,
         ⟨"b", "T", "L", "I", "C", "x", PhaseStatus.running, 1, 10, none, [], true⟩]).averageProgress = 1 ∧
    totalProgress
        [⟨"a", "T", "L", "I", "C", "x", PhaseStatus.pending, 0, 10, none, [], true⟩,
         ⟨"b", "T", "L", "I", "C", "x", PhaseStatus.running, 1, 10, none, [], true⟩] /
      (2 : ℚ) = 1 / 2 ∧
    (1 : ℚ) ≠ 1 / 2 := by
  refine ⟨?_, by norm_num [totalProgress], by norm_num⟩
  norm_num [overallExperimentProgress, totalProgress, mathRound]

/-- C3 (amended): aggregateProgress returns the arithmetic mean rounded to
the nearest integer, halves up (0 for the empty sequence), the completed
count, the length, and a completion flag that is true exactly when the
sequence is nonempty and every step is completed; on the 3-step instance
with progresses 100, 50, 0 and statuses completed, running, pending it
returns 50, 1, 3, false. -/
theorem overall_progress_spec (phases : List Phase) :
    (phases.length = 0 → overallExperimentProgress phases =
      { averageProgress := 0, completedCount := 0, totalCount := 0,
        isComplete := false }) ∧
    (phases.length ≠ 0 →
      (overallExperimentProgress phases).averageProgress =
        mathRound ((phases.map (fun p => p.progress)).sum / (phases.length : ℚ)) ∧
      (overallExperimentProgress phases).completedCount =
        (phases.filter (fun p => decide (p.status = PhaseStatus.completed))).length ∧
      (overallExperimentProgress phases).totalCount = phases.length ∧
      ((overallExperimentProgress phases).isComplete = true ↔
        (0 < phases.length ∧
          (phases.filter (fun p => decide (p.status = PhaseStatus.completed))).length =
            phases.length))) ∧
    overallExperimentProgress
        [⟨"a", "T", "L", "I", "C", "x", PhaseStatus.completed, 100, 10, none, [], true⟩,
         ⟨"b", "T", "L", "I", "C", "x", PhaseStatus.running, 50, 10, none, [], true⟩,
         ⟨"c", "T", "L", "I", "C", "x", PhaseStatus.pending, 0, 10, none, [], true⟩] =
      { averageProgress := 50, completedCount := 1, totalCount := 3,
        isComplete := false } := by
  refine ⟨?_, ?_, ?_⟩
  · intro h
    simp [overallExperimentProgress, h]
  · intro h
    rw [overallExperimentProgress]
    rw [if_neg h]
    refine ⟨by rw [totalProgress_eq_sum], rfl, rfl, ?_⟩
    simp [and_comm]
  · norm_num [overallExperimentProgress, totalProgress, mathRound]
    decide

/-- Witness for C3 (amended) on a concrete nonempty sequence. -/
theorem overall_progress_spec_witness :
    (overallExperimentProgress
        [⟨"a", "T", "L", "I", "C", "x", PhaseStatus.completed, 100, 10, none, [], true⟩]).totalCount = 1 := by
  exact ((overall_progress_spec
    [⟨"a", "T", "L", "I", "C", "x", PhaseStatus.completed, 100, 10, none, [], true⟩]).2.1
    (by decide)).2.2.1

/-! ## Claim C1: reorder-on-item-drop -/

/-- C1: on the sequence a, b, c, dropping a onto c must place a immediately
before c.  The workbench variant (handlePhaseDrop) re-finds the target index
after the removal and produces b, a, c as required; the WorkflowBuilder
variant (handleWorkflowItemDrop) inserts at the stale pre-removal target
index and produces b, c, a, leaving the source AFTER the target. -/
theorem wb_item_drop_stale_target_eval :
    handleWorkflowItemDrop "a" "c"
        [⟨"a", "T", "A", "I", "C", "x"⟩, ⟨"b", "T", "B", "I", "C", "x"⟩,
         ⟨"c", "T", "G", "I", "C", "x"⟩] =
      [⟨"b", "T", "B", "I", "C", "x"⟩, ⟨"c", "T", "G", "I", "C", "x"⟩,
       ⟨"a", "T", "A", "I", "C", "x"⟩] ∧
    handlePhaseDrop "a" "c"
        [⟨"a", "T", "A", "I", "C", "x", PhaseStatus.pending, 0, 10, none, [], true⟩,
         ⟨"b", "T", "B", "I", "C", "x", PhaseStatus.pending, 0, 10, none, [], true⟩,
         ⟨"c", "T", "G", "I", "C", "x", PhaseStatus.pending, 0, 10, none, [], true⟩] =
      [⟨"b", "T", "B", "I", "C", "x", PhaseStatus.pending, 0, 10, none, [], true⟩,
       ⟨"a", "T", "A", "I", "C", "x", PhaseStatus.pending, 0, 10, none, [], true⟩,
       ⟨"c", "T", "G", "I", "C", "x", PhaseStatus.pending, 0, 10, none, [], true⟩] := by
  constructor <;> rfl

/-! ## Claim C5: progress equals 100 exactly on completed phases -/

theorem togglePhaseFun_inv {pid t : String} {p : Phase}
    (h : p.progress = 100 ↔ p.status = PhaseStatus.completed) :
    (togglePhaseFun pid t p).progress = 100 ↔
      (togglePhaseFun pid t p).status = PhaseStatus.completed := by
  by_cases hid : p.id = pid
  · rcases hs : p.status with _ | _ | _ | _ | _ <;>
      rw [hs] at h <;>
      simp [togglePhaseFun, hid, hs] <;>
      simp_all
  · simp [togglePhaseFun, hid, h]

theorem tickPhaseFun_inv {pid : String} {inc : ℚ} {d t : String} {q : Phase}
    (h : q.progress = 100 ↔ q.status = PhaseStatus.completed) :
    (tickPhaseFun pid inc d t q).progress = 100 ↔
      (tickPhaseFun pid inc d t q).status = PhaseStatus.completed := by
  unfold tickPhaseFun
  split
  · rename_i hg
    dsimp only
    split
    · simp
    · rename_i hlt
      have h1 : min 100 (q.progress + inc) ≠ 100 := fun hc =>
        hlt (le_of_eq hc.symm)
      simp [hg.2, h1]
  · exact h

theorem updatePhaseTextFun_inv {pid txt : String} {p : Phase}
    (h : p.progress = 100 ↔ p.status = PhaseStatus.completed) :
    (updatePhaseTextFun pid txt p).progress = 100 ↔
      (updatePhaseTextFun pid txt p).status = PhaseStatus.completed := by
  unfold updatePhaseTextFun
  split <;> simpa using h

theorem mem_spliceRemove {α : Type} {i : ℕ} {l : List α} {x : α}
    (h : x ∈ spliceRemove i l) : x ∈ l := by
  rcases List.mem_append.mp (by simpa [spliceRemove] using h) with h1 | h1
  · exact List.take_subset _ _ h1
  · exact List.drop_subset _ _ h1

theorem mem_handlePhaseDrop {src tgt : String} {phases : List Phase} {p : Phase}
    (h : p ∈ handlePhaseDrop src tgt phases) : p ∈ phases := by
  unfold handlePhaseDrop at h
  split at h
  · exact h
  split at h
  · rename_i si ti heq
    split at h
    · rename_i dragged hdr
      dsimp only at h
      split at h
      · rename_i nti hnew
        simp only [spliceInsert, List.mem_append, List.mem_cons] at h
        rcases h with h1 | rfl | h1
        · exact mem_spliceRemove (List.take_subset _ _ h1)
        · exact List.get?_mem hdr
        · exact mem_spliceRemove (List.drop_subset _ _ h1)
      · rcases List.mem_append.mp h with h1 | h1
        · exact mem_spliceRemove h1
        · rcases List.mem_singleton.mp h1 with rfl
          exact List.get?_mem hdr
    · exact h
  · exact h

theorem tickE_phases_cases (pid d t : String) (e : EngineState) :
    (tickE pid d t e).phases = e.phases ∨
    ∃ inc, (tickE pid d t e).phases = tickPhases pid inc d t e.phases := by
  unfold tickE
  split
  · split
    · right; exact ⟨_, rfl⟩
    · left; rfl
  · left; rfl

theorem applyEvent_inv (e : Event) (s : EngineState)
    (h : ProgressStatusInv s.phases) :
    ProgressStatusInv (applyEvent e s).phases := by
  cases e with
  | append b nid =>
    intro p hp
    simp only [applyEvent, handleCanvasDrop, List.mem_append,
      List.mem_singleton] at hp
    rcases hp with h1 | rfl
    · exact h p h1
    · simp [mkNewPhase]
  | toggle pid t =>
    intro p hp
    rcases List.mem_map.mp (by simpa [applyEvent, toggleE, togglePhases] using hp)
      with ⟨q, hq, rfl⟩
    exact togglePhaseFun_inv (h q hq)
  | tick pid d t =>
    intro p hp
    rcases tickE_phases_cases pid d t s with hc | ⟨inc, hc⟩
    · rw [show applyEvent (Event.tick pid d t) s = tickE pid d t s from rfl, hc] at hp
      exact h p hp
    · rw [show applyEvent (Event.tick pid d t) s = tickE pid d t s from rfl, hc] at hp
      rcases List.mem_map.mp hp with ⟨q, hq, rfl⟩
      exact tickPhaseFun_inv (h q hq)
  | remove pid =>
    intro p hp
    simp only [applyEvent, removePhaseE, List.mem_filter] at hp
    exact h p hp.1
  | reorder src tgt =>
    intro p hp
    exact h p (mem_handlePhaseDrop (by simpa [applyEvent] using hp))
  | editText pid txt =>
    intro p hp
    rcases List.mem_map.mp (by simpa [applyEvent, updatePhaseText] using hp)
      with ⟨q, hq, rfl⟩
    exact updatePhaseTextFun_inv (h q hq)

theorem runEvents_inv (es : List Event) (s : EngineState)
    (h : ProgressStatusInv s.phases) :
    ProgressStatusInv (runEvents es s).phases := by
  induction es generalizing s with
  | nil => exact h
  | cons e es ih => exact ih _ (applyEvent_inv e s h)

/-- C5: in every state reachable from the empty canvas by the engine's own
operations (append, toggle, tick, remove, reorder, description edit), a
phase's progress is 100 exactly when its status is completed. -/
theorem progress_iff_completed_invariant (es : List Event) :
    ∀ p ∈ (runEvents es ⟨[], []⟩).phases,
      p.progress = 100 ↔ p.status = PhaseStatus.completed :=
  runEvents_inv es ⟨[], []⟩ (by intro p hp; simp at hp)

/-- Witness for C5 after appending one concrete phase and starting it. -/
theorem progress_iff_completed_invariant_witness :
    (togglePhaseFun "a" "t" (mkNewPhase "a" ⟨"T", "L", "I", "C", "D", 10⟩)).progress = 100 ↔
      (togglePhaseFun "a" "t" (mkNewPhase "a" ⟨"T", "L", "I", "C", "D", 10⟩)).status =
        PhaseStatus.completed :=
  progress_iff_completed_invariant
    [Event.append ⟨"T", "L", "I", "C", "D", 10⟩ "a", Event.toggle "a" "t"] _ (by decide)

/-! ## Claim C7: removal cancels the timer and silences future ticks -/

theorem tickPhases_noop_of_absent {pid : String} {inc : ℚ} {d t : String}
    {phases : List Phase} (h : ∀ p ∈ phases, p.id ≠ pid) :
    tickPhases pid inc d t phases = phases :=
  (List.map_congr_left fun p hp =>
    tickPhaseFun_noop_of_ne (h p hp)).trans (List.map_id _)

theorem tickE_timers_cases (pid d t : String) (e : EngineState) :
    (tickE pid d t e).timers = e.timers ∨
    (tickE pid d t e).timers = e.timers.filter (fun i => decide (i ≠ pid)) := by
  unfold tickE
  split
  · split
    · dsimp only
      split
      · right; rfl
      · left; rfl
    · left; rfl
  · left; rfl

theorem idFree_removePhaseE (pid : String) (e : EngineState) :
    IdFree pid (removePhaseE pid e) := by
  constructor
  · intro p hp
    simpa using (List.mem_filter.mp hp).2
  · intro hm
    have h2 := (List.mem_filter.mp hm).2
    simp at h2

theorem idFree_applyEvent {pid : String} {s : EngineState} (e : Event)
    (h : IdFree pid s) (he : ∀ b nid, e = Event.append b nid → nid ≠ pid) :
    IdFree pid (applyEvent e s) := by
  obtain ⟨hph, htm⟩ := h
  cases e with
  | append b nid =>
    have hnid : nid ≠ pid := he b nid rfl
    constructor
    · intro p hp
      simp only [applyEvent, handleCanvasDrop, List.mem_append,
        List.mem_singleton] at hp
      rcases hp with h1 | rfl
      · exact hph p h1
      · simpa [mkNewPhase] using hnid
    · exact htm
  | toggle q t =>
    constructor
    · intro p hp
      simp only [applyEvent, toggleE, togglePhases] at hp
      rcases List.mem_map.mp hp with ⟨r, hr, rfl⟩
      rw [togglePhaseFun_id]
      exact hph r hr
    · show pid ∉ toggleTimers q s.phases s.timers
      unfold toggleTimers
      split
      · rename_i p hfind
        have hq : p ∈ s.phases := List.mem_of_find?_eq_some hfind
        have hpq : p.id = q := by simpa using List.find?_some hfind
        have hqne : q ≠ pid := fun hqp => (hph p hq) (hpq.trans hqp)
        split <;>
          first
            | exact htm
            | (intro hm
               exact htm (List.mem_filter.mp hm).1)
            | (intro hm
               rcases List.mem_append.mp hm with h1 | h1
               · exact htm (List.mem_filter.mp h1).1
               · exact hqne (List.mem_singleton.mp h1).symm)
      · exact htm
  | tick q d t =>
    constructor
    · intro p hp
      rcases tickE_phases_cases q d t s with hc | ⟨inc, hc⟩
      · rw [show applyEvent (Event.tick q d t) s = tickE q d t s from rfl, hc] at hp
        exact hph p hp
      · rw [show applyEvent (Event.tick q d t) s = tickE q d t s from rfl, hc] at hp
        rcases List.mem_map.mp hp with ⟨r, hr, rfl⟩
        rw [tickPhaseFun_id]
        exact hph r hr
    · rcases tickE_timers_cases q d t s with hc | hc <;>
        rw [show applyEvent (Event.tick q d t) s = tickE q d t s from rfl, hc]
      · exact htm
      · intro hm
        exact htm (List.mem_filter.mp hm).1
  | remove q =>
    constructor
    · intro p hp
      exact hph p (List.mem_filter.mp hp).1
    · intro hm
      exact htm (List.mem_filter.mp hm).1
  | reorder src tgt =>
    constructor
    · intro p hp
      have hp2 : p ∈ handlePhaseDrop src tgt s.phases := by
        simpa [applyEvent] using hp
      exact hph p (mem_handlePhaseDrop hp2)
    · exact htm
  | editText q txt =>
    constructor
    · intro p hp
      simp only [applyEvent, updatePhaseText] at hp
      rcases List.mem_map.mp hp with ⟨r, hr, rfl⟩
      rw [updatePhaseTextFun_id]
      exact hph r hr
    · exact htm

theorem runEvents_idFree {pid : String} (es : List Event) (s : EngineState)
    (h : IdFree pid s) (he : ∀ b nid, Event.append b nid ∈ es → nid ≠ pid) :
    IdFree pid (runEvents es s) := by
  induction es generalizing s with
  | nil => exact h
  | cons e es ih =>
    refine ih _ (idFree_applyEvent e h fun b nid hbe => ?_)
      fun b nid hm => he b nid (List.mem_cons_of_mem _ hm)
    exact he b nid (hbe ▸ List.mem_cons_self _ _)

/-- C7: removing a step synchronously deletes the interval registered under
its id, and afterwards - in every state reached by further operations whose
appended steps use fresh ids - that id owns no timer and no phase, a tick
event addressed to it is the identity on the whole engine state, and the
tick list-update leaves any list free of that id unchanged. -/
theorem remove_cancels_timer (pid : String) (s : EngineState) (es : List Event)
    (he : ∀ b nid, Event.append b nid ∈ es → nid ≠ pid) :
    pid ∉ (removePhaseE pid s).timers ∧
    (∀ p ∈ (removePhaseE pid s).phases, p.id ≠ pid) ∧
    pid ∉ (runEvents es (removePhaseE pid s)).timers ∧
    (∀ p ∈ (runEvents es (removePhaseE pid s)).phases, p.id ≠ pid) ∧
    (∀ d t, tickE pid d t (runEvents es (removePhaseE pid s)) =
      runEvents es (removePhaseE pid s)) ∧
    (∀ (inc : ℚ) (d t : String) (l : List Phase), (∀ p ∈ l, p.id ≠ pid) →
      tickPhases pid inc d t l = l) := by
  have h0 := idFree_removePhaseE pid s
  have h1 := runEvents_idFree es (removePhaseE pid s) h0 he
  refine ⟨h0.2, h0.1, h1.2, h1.1, ?_, ?_⟩
  · intro d t
    unfold tickE
    rw [if_neg h1.2]
  · intro inc d t l hl
    exact tickPhases_noop_of_absent hl

/-- Witness for C7: a concrete two-phase engine state where the phase a is
removed while it owns the only timer, followed by a toggle of phase b. -/
theorem remove_cancels_timer_witness :
    "a" ∉ (removePhaseE "a"
      ⟨[⟨"a", "T", "A", "I", "C", "x", PhaseStatus.running, 40, 10, none, [], true⟩,
        ⟨"b", "T", "B", "I", "C", "x", PhaseStatus.pending, 0, 10, none, [], true⟩],
       ["a"]⟩).timers ∧
    tickE "a" "d" "t"
        (runEvents [Event.toggle "b" "t"] (removePhaseE "a"
          ⟨[⟨"a", "T", "A", "I", "C", "x", PhaseStatus.running, 40, 10, none, [], true⟩,
            ⟨"b", "T", "B", "I", "C", "x", PhaseStatus.pending, 0, 10, none, [], true⟩],
           ["a"]⟩)) =
      runEvents [Event.toggle "b" "t"] (removePhaseE "a"
        ⟨[⟨"a", "T", "A", "I", "C", "x", PhaseStatus.running, 40, 10, none, [], true⟩,
          ⟨"b", "T", "B", "I", "C", "x", PhaseStatus.pending, 0, 10, none, [], true⟩],
         ["a"]⟩) := by
  have he : ∀ b nid, Event.append b nid ∈ [Event.toggle "b" "t"] → nid ≠ "a" := by
    intro b nid hm
    simp at hm
  exact ⟨(remove_cancels_timer "a" _ [Event.toggle "b" "t"] he).1,
    (remove_cancels_timer "a" _ [Event.toggle "b" "t"] he).2.2.2.2.1 "d" "t"⟩

/-! ## Claims C2 and C4: tick arithmetic, completion, pause and resume -/

theorem progressIncrement_nat (n : ℕ) (hn : 0 < n) :
    progressIncrement (n : ℚ) = 100 / ((n : ℚ) * 5) := by
  have hn' : (0 : ℚ) < (n : ℚ) := by exact_mod_cast hn
  unfold progressIncrement simSteps
  rw [show ((1000 : ℚ) / 200) = 5 from by norm_num, if_pos (by nlinarith)]

theorem inc_mul_lt_100 (n k : ℕ) (hn : 0 < n) (hk : k < 5 * n) :
    (k : ℚ) * (100 / ((n : ℚ) * 5)) < 100 := by
  have hn' : (0 : ℚ) < (n : ℚ) := by exact_mod_cast hn
  have h5 : (0 : ℚ) < (n : ℚ) * 5 := by nlinarith
  rw [mul_div_assoc', div_lt_iff₀ h5]
  have hk' : (k : ℚ) < (n : ℚ) * 5 := by
    have h := (Nat.cast_lt (α := ℚ)).mpr hk
    push_cast at h
    linarith
  nlinarith

theorem inc_mul_ge_100 (n k : ℕ) (hn : 0 < n) (hk : 5 * n ≤ k) :
    (100 : ℚ) ≤ (k : ℚ) * (100 / ((n : ℚ) * 5)) := by
  have hn' : (0 : ℚ) < (n : ℚ) := by exact_mod_cast hn
  have h5 : (0 : ℚ) < (n : ℚ) * 5 := by nlinarith
  rw [mul_div_assoc', le_div_iff₀ h5]
  have hk' : (n : ℚ) * 5 ≤ (k : ℚ) := by
    have h := (Nat.cast_le (α := ℚ)).mpr hk
    push_cast at h
    linarith
  nlinarith

theorem tickE_step_running (pid ds ts : String) (q : Phase) (n k : ℕ)
    (hn : 0 < n) (hid : q.id = pid) (hst : q.status = PhaseStatus.running)
    (hd : q.estimatedDuration = (n : ℚ))
    (hp : q.progress = (k : ℚ) * (100 / ((n : ℚ) * 5)))
    (hk : k + 1 < 5 * n) :
    tickE pid ds ts ⟨[q], [pid]⟩ =
      ⟨[{ q with progress := ((k + 1 : ℕ) : ℚ) * (100 / ((n : ℚ) * 5)) }],
        [pid]⟩ := by
  have hsum : q.progress + progressIncrement q.estimatedDuration =
      ((k + 1 : ℕ) : ℚ) * (100 / ((n : ℚ) * 5)) := by
    rw [hp, hd, progressIncrement_nat n hn]
    push_cast
    ring
  have hlt : q.progress + progressIncrement q.estimatedDuration < 100 := by
    rw [hsum]
    exact inc_mul_lt_100 n (k + 1) hn hk
  have hmin : min 100 (q.progress + progressIncrement q.estimatedDuration) =
      ((k + 1 : ℕ) : ℚ) * (100 / ((n : ℚ) * 5)) := by
    rw [min_eq_right (le_of_lt hlt), hsum]
  have hnle : ¬ (100 : ℚ) ≤
      min 100 (q.progress + progressIncrement q.estimatedDuration) := by
    rw [hmin, ← hsum]
    exact not_le.mpr hlt
  have hcomp : tickCompletes pid (progressIncrement q.estimatedDuration)
      [q] = false := by
    simp only [tickCompletes, List.any_cons, List.any_nil, Bool.or_false,
      decide_eq_false_iff_not, not_and]
    intro _ _
    exact hnle
  have hfun : tickPhaseFun pid (progressIncrement q.estimatedDuration) ds ts q =
      { q with progress := ((k + 1 : ℕ) : ℚ) * (100 / ((n : ℚ) * 5)) } := by
    unfold tickPhaseFun
    rw [if_pos ⟨hid, hst⟩]
    dsimp only
    rw [if_neg hnle, hmin]
  unfold tickE
  rw [if_pos (List.mem_singleton.mpr rfl)]
  rw [show List.find? (fun p => decide (p.id = pid)) [q] = some q from by
    simp [List.find?_cons, hid]]
  dsimp only
  rw [hcomp]
  simp only [Bool.false_eq_true, if_false]
  rw [show tickPhases pid (progressIncrement q.estimatedDuration) ds ts [q] =
    [tickPhaseFun pid (progressIncrement q.estimatedDuration) ds ts q] from rfl]
  rw [hfun]

theorem tickE_step_complete (pid ds ts : String) (q : Phase) (n k : ℕ)
    (hn : 0 < n) (hid : q.id = pid) (hst : q.status = PhaseStatus.running)
    (hd : q.estimatedDuration = (n : ℚ))
    (hp : q.progress = (k : ℚ) * (100 / ((n : ℚ) * 5)))
    (hk : 5 * n ≤ k + 1) :
    tickE pid ds ts ⟨[q], [pid]⟩ =
      ⟨[{ q with
            progress := 100
            status := PhaseStatus.completed
            actualDuration := some (ds ++ "s")
            logs := q.logs ++ ["Phase completed in " ++ ds ++ "s at " ++ ts] }],
        []⟩ := by
  have hge : (100 : ℚ) ≤ q.progress + progressIncrement q.estimatedDuration := by
    rw [hp, hd, progressIncrement_nat n hn]
    calc (100 : ℚ) ≤ ((k + 1 : ℕ) : ℚ) * (100 / ((n : ℚ) * 5)) :=
        inc_mul_ge_100 n (k + 1) hn hk
      _ = (k : ℚ) * (100 / ((n : ℚ) * 5)) + 100 / ((n : ℚ) * 5) := by
        push_cast
        ring
  have hminge : (100 : ℚ) ≤
      min 100 (q.progress + progressIncrement q.estimatedDuration) :=
    le_min le_rfl hge
  have hcomp : tickCompletes pid (progressIncrement q.estimatedDuration)
      [q] = true := by
    simp only [tickCompletes, List.any_cons, List.any_nil, Bool.or_false,
      decide_eq_true_eq]
    exact ⟨hid, hst, hminge⟩
  have hfun : tickPhaseFun pid (progressIncrement q.estimatedDuration) ds ts q =
      { q with
          progress := 100
          status := PhaseStatus.completed
          actualDuration := some (ds ++ "s")
          logs := q.logs ++ ["Phase completed in " ++ ds ++ "s at " ++ ts] } := by
    unfold tickPhaseFun
    rw [if_pos ⟨hid, hst⟩]
    dsimp only
    rw [if_pos hminge]
  unfold tickE
  rw [if_pos (List.mem_singleton.mpr rfl)]
  rw [show List.find? (fun p => decide (p.id = pid)) [q] = some q from by
    simp [List.find?_cons, hid]]
  dsimp only
  rw [hcomp]
  simp only [if_true]
  rw [show tickPhases pid (progressIncrement q.estimatedDuration) ds ts [q] =
    [tickPhaseFun pid (progressIncrement q.estimatedDuration) ds ts q] from rfl]
  rw [hfun]
  simp

theorem tickE_iterate_running (pid ds ts : String) (n : ℕ) (hn : 0 < n) :
    ∀ (m k : ℕ) (q : Phase), q.id = pid → q.status = PhaseStatus.running →
      q.estimatedDuration = (n : ℚ) →
      q.progress = (k : ℚ) * (100 / ((n : ℚ) * 5)) →
      k + m < 5 * n →
      (tickE pid ds ts)^[m] ⟨[q], [pid]⟩ =
        ⟨[{ q with progress := ((k + m : ℕ) : ℚ) * (100 / ((n : ℚ) * 5)) }],
          [pid]⟩ := by
  intro m
  induction m with
  | zero =>
    intro k q hid hst hd hp hk
    simp only [Function.iterate_zero, id_eq, Nat.add_zero]
    rw [← hp]
  | succ m ih =>
    intro k q hid hst hd hp hk
    rw [Function.iterate_succ_apply]
    rw [tickE_step_running pid ds ts q n k hn hid hst hd hp (by omega)]
    have h2 := ih (k + 1)
      { q with progress := ((k + 1 : ℕ) : ℚ) * (100 / ((n : ℚ) * 5)) }
      hid hst hd rfl (by omega)
    rw [show k + 1 + m = k + (m + 1) from by omega] at h2
    exact h2

theorem tickE_run_completes (pid ds ts : String) (n k : ℕ) (hn : 0 < n)
    (q : Phase) (hid : q.id = pid) (hst : q.status = PhaseStatus.running)
    (hd : q.estimatedDuration = (n : ℚ))
    (hp : q.progress = (k : ℚ) * (100 / ((n : ℚ) * 5)))
    (hk : k < 5 * n) :
    (tickE pid ds ts)^[5 * n - k] ⟨[q], [pid]⟩ =
      ⟨[{ q with
            progress := 100
            status := PhaseStatus.completed
            actualDuration := some (ds ++ "s")
            logs := q.logs ++
              ["Phase completed in " ++ ds ++ "s at " ++ ts] }],
        []⟩ := by
  have hm : 5 * n - k = (5 * n - k - 1) + 1 := by omega
  rw [hm, Function.iterate_succ_apply']
  rw [tickE_iterate_running pid ds ts n hn (5 * n - k - 1) k q hid hst hd hp
    (by omega)]
  rw [show k + (5 * n - k - 1) = 5 * n - 1 from by omega]
  exact tickE_step_complete pid ds ts _ n (5 * n - 1) hn hid hst hd rfl
    (by omega)

theorem toggleE_start_pending (p : Phase) (t : String) (tms : List String)
    (hp : p.status = PhaseStatus.pending) :
    toggleE p.id t ⟨[p], tms⟩ =
      ⟨[{ p with
            status := PhaseStatus.running
            progress := 0
            logs := p.logs ++ ["Phase execution started at " ++ t] }],
        tms.filter (fun i => decide (i ≠ p.id)) ++ [p.id]⟩ := by
  have hfun : togglePhaseFun p.id t p =
      { p with
          status := PhaseStatus.running
          progress := 0
          logs := p.logs ++ ["Phase execution started at " ++ t] } := by
    simp [togglePhaseFun, hp]
  have htm : toggleTimers p.id [p] tms =
      tms.filter (fun i => decide (i ≠ p.id)) ++ [p.id] := by
    simp [toggleTimers, List.find?_cons, hp]
  unfold toggleE togglePhases
  dsimp only
  simp only [List.map_cons, List.map_nil]
  rw [hfun, htm]

theorem toggleE_pause (p : Phase) (t : String) (tms : List String)
    (hp : p.status = PhaseStatus.running) :
    toggleE p.id t ⟨[p], tms⟩ =
      ⟨[{ p with status := PhaseStatus.paused }],
        tms.filter (fun i => decide (i ≠ p.id))⟩ := by
  have hfun : togglePhaseFun p.id t p =
      { p with status := PhaseStatus.paused } := by
    simp [togglePhaseFun, hp]
  have htm : toggleTimers p.id [p] tms =
      tms.filter (fun i => decide (i ≠ p.id)) := by
    simp [toggleTimers, List.find?_cons, hp]
  unfold toggleE togglePhases
  dsimp only
  simp only [List.map_cons, List.map_nil]
  rw [hfun, htm]

theorem toggleE_resume_paused (p : Phase) (t : String) (tms : List String)
    (hp : p.status = PhaseStatus.paused) :
    toggleE p.id t ⟨[p], tms⟩ =
      ⟨[{ p with
            status := PhaseStatus.running
            logs := p.logs ++ ["Phase execution started at " ++ t] }],
        tms.filter (fun i => decide (i ≠ p.id)) ++ [p.id]⟩ := by
  have hfun : togglePhaseFun p.id t p =
      { p with
          status := PhaseStatus.running
          logs := p.logs ++ ["Phase execution started at " ++ t] } := by
    simp [togglePhaseFun, hp]
  have htm : toggleTimers p.id [p] tms =
      tms.filter (fun i => decide (i ≠ p.id)) ++ [p.id] := by
    simp [toggleTimers, List.find?_cons, hp]
  unfold toggleE togglePhases
  dsimp only
  simp only [List.map_cons, List.map_nil]
  rw [hfun, htm]

/-- C2: the per-tick increment of a started step is
100 / (estimatedDurationSeconds * 5) (five 200ms ticks per second); each tick
clamps progress to at most 100; and a step with estimatedDurationSeconds = 10
started from pending is still running after every number of uninterrupted
ticks below 50 with progress m * 2, while after exactly 50 ticks it is
completed with progress 100 and its timer is cancelled. -/
theorem tick_rate_and_completion (p : Phase) (t ds ts : String)
    (hpend : p.status = PhaseStatus.pending)
    (hd : p.estimatedDuration = 10) :
    (∀ d : ℚ, 0 < d → progressIncrement d = 100 / (d * 5)) ∧
    (∀ (pid : String) (inc : ℚ) (d2 t2 : String) (q : Phase),
      q.id = pid → q.status = PhaseStatus.running →
      (tickPhaseFun pid inc d2 t2 q).progress ≤ 100) ∧
    (∀ m : ℕ, m < 50 →
      ∃ r, (tickE p.id ds ts)^[m] (toggleE p.id t ⟨[p], []⟩) = ⟨[r], [p.id]⟩ ∧
        r.status = PhaseStatus.running ∧
        r.progress = (m : ℚ) * (100 / (10 * 5))) ∧
    (∃ f, (tickE p.id ds ts)^[50] (toggleE p.id t ⟨[p], []⟩) = ⟨[f], []⟩ ∧
      f.status = PhaseStatus.completed ∧ f.progress = 100) := by
  have hstart := toggleE_start_pending p t [] hpend
  simp only [List.filter_nil, List.nil_append] at hstart
  have hd1 : ({ p with
      status := PhaseStatus.running
      progress := 0
      logs := p.logs ++ ["Phase execution started at " ++ t] } : Phase).estimatedDuration =
      ((10 : ℕ) : ℚ) := by
    rw [show ((10 : ℕ) : ℚ) = (10 : ℚ) from by norm_num]
    exact hd
  refine ⟨?_, ?_, ?_, ?_⟩
  · intro d hdpos
    unfold progressIncrement simSteps
    rw [show ((1000 : ℚ) / 200) = 5 from by norm_num, if_pos (by nlinarith)]
  · intro pid inc d2 t2 q h1 h2
    unfold tickPhaseFun
    rw [if_pos ⟨h1, h2⟩]
    dsimp only
    split
    · exact le_refl _
    · exact min_le_left _ _
  · intro m hm
    rw [hstart]
    rw [tickE_iterate_running p.id ds ts 10 (by norm_num) m 0
      { p with
          status := PhaseStatus.running
          progress := 0
          logs := p.logs ++ ["Phase execution started at " ++ t] }
      rfl rfl hd1 (by simp) (by omega)]
    refine ⟨_, rfl, rfl, ?_⟩
    push_cast
    norm_num
  · rw [hstart]
    have hrun := tickE_run_completes p.id ds ts 10 0 (by norm_num)
      { p with
          status := PhaseStatus.running
          progress := 0
          logs := p.logs ++ ["Phase execution started at " ++ t] }
      rfl rfl hd1 (by simp) (by norm_num)
    rw [show 5 * 10 - 0 = 50 from by norm_num] at hrun
    exact ⟨_, hrun, rfl, rfl⟩

/-- Witness for C2: a concrete pending phase with a 10 second estimate; the
increment at a 10 second estimate is 2 percent per tick. -/
theorem tick_rate_and_completion_witness :
    progressIncrement 10 = 100 / (10 * 5) :=
  (tick_rate_and_completion
    ⟨"a", "T", "L", "I", "C", "x", PhaseStatus.pending, 0, 10, none, [], true⟩
    "t" "d" "s" rfl rfl).1 10 (by norm_num)

/-- C4: toggling a running step cancels its timer, sets status paused and
retains progress; toggling the paused step again resumes running from the
retained progress P (not from 0); from there the step completes in exactly
5n - k further ticks, and that remaining simulated time, at one fifth of a
second per tick, equals (100 - P) / 100 times the estimated duration rather
than the full estimate. -/
theorem pause_resume_spec (p : Phase) (t t2 ds ts : String) (n k : ℕ)
    (hn : 0 < n) (hrun : p.status = PhaseStatus.running)
    (hd : p.estimatedDuration = (n : ℚ))
    (hp : p.progress = (k : ℚ) * (100 / ((n : ℚ) * 5)))
    (hk : k < 5 * n) :
    toggleE p.id t ⟨[p], [p.id]⟩ =
      ⟨[{ p with status := PhaseStatus.paused }], []⟩ ∧
    ({ p with status := PhaseStatus.paused } : Phase).progress = p.progress ∧
    toggleE p.id t2 ⟨[{ p with status := PhaseStatus.paused }], []⟩ =
      ⟨[{ p with
            status := PhaseStatus.running
            logs := p.logs ++ ["Phase execution started at " ++ t2] }],
        [p.id]⟩ ∧
    ({ p with
        status := PhaseStatus.running
        logs := p.logs ++ ["Phase execution started at " ++ t2] } : Phase).progress =
      p.progress ∧
    (∃ f, (tickE p.id ds ts)^[5 * n - k]
        ⟨[{ p with
            status := PhaseStatus.running
            logs := p.logs ++ ["Phase execution started at " ++ t2] }], [p.id]⟩ =
        ⟨[f], []⟩ ∧ f.status = PhaseStatus.completed ∧ f.progress = 100) ∧
    ((5 * n - k : ℕ) : ℚ) * (1 / 5) = (100 - p.progress) / 100 * (n : ℚ) := by
  refine ⟨?_, rfl, ?_, rfl, ?_, ?_⟩
  · have h1 := toggleE_pause p t [p.id] hrun
    simpa using h1
  · have h2 := toggleE_resume_paused
      ({ p with status := PhaseStatus.paused } : Phase) t2 [] rfl
    simpa using h2
  · have h3 := tickE_run_completes p.id ds ts n k hn
      { p with
          status := PhaseStatus.running
          logs := p.logs ++ ["Phase execution started at " ++ t2] }
      rfl rfl hd hp hk
    exact ⟨_, h3, rfl, rfl⟩
  · have hn' : (0 : ℚ) < (n : ℚ) := by exact_mod_cast hn
    rw [hp, Nat.cast_sub (le_of_lt hk)]
    push_cast
    field_simp
    ring

/-- Witness for C4: a concrete running phase with a 10 second estimate paused
at progress 50 (25 ticks in); the remaining time is 5 seconds, half the
estimate. -/
theorem pause_resume_spec_witness :
    toggleE "a" "t"
        ⟨[⟨"a", "T", "L", "I", "C", "x", PhaseStatus.running, 50, 10, none, [], true⟩],
         ["a"]⟩ =
      ⟨[⟨"a", "T", "L", "I", "C", "x", PhaseStatus.paused, 50, 10, none, [], true⟩],
       []⟩ ∧
    ((5 * 10 - 25 : ℕ) : ℚ) * (1 / 5) = (100 - (50 : ℚ)) / 100 * (10 : ℚ) := by
  have h := pause_resume_spec
    ⟨"a", "T", "L", "I", "C", "x", PhaseStatus.running, 50, 10, none, [], true⟩
    "t" "t2" "d" "s" 10 25 (by norm_num) rfl (by norm_num) (by norm_num)
    (by norm_num)
  exact ⟨h.1, h.2.2.2.2.2⟩

/-! ## Claim C6: runAllPhases runs snapshot steps strictly in sequence -/

theorem statusOf_pair_fst {a : String} (pa pb : Phase) (ha : pa.id = a) :
    statusOf a [pa, pb] = some pa.status := by
  simp [statusOf, List.find?_cons, ha]

theorem statusOf_pair_snd {b : String} (pa pb : Phase) (hab : pa.id ≠ b)
    (hb : pb.id = b) : statusOf b [pa, pb] = some pb.status := by
  simp [statusOf, List.find?_cons, hab, hb]

theorem togglePhases_pair (i t : String) (pa pb : Phase) :
    togglePhases i t [pa, pb] = [togglePhaseFun i t pa, togglePhaseFun i t pb] :=
  rfl

theorem tickPhaseFun_status_of_not_running {pid : String} {inc : ℚ}
    {d t : String} {q : Phase} (h : q.status ≠ PhaseStatus.running) :
    (tickPhaseFun pid inc d t q).status = q.status := by
  rw [tickPhaseFun_noop_of_not_running h]

theorem c6_inv_tick {a b : String} (pid d t : String) (s : SysState)
    (h : C6Inv a b s) :
    C6Inv a b { s with engine := tickE pid d t s.engine } := by
  obtain ⟨pa, pb, hph, hpa, hpb, hcases⟩ := h
  rcases tickE_phases_cases pid d t s.engine with hc | ⟨inc, hc⟩
  · exact ⟨pa, pb, by rw [show ({ s with engine := tickE pid d t s.engine } :
      SysState).engine.phases = (tickE pid d t s.engine).phases from rfl, hc, hph],
      hpa, hpb, hcases⟩
  · refine ⟨tickPhaseFun pid inc d t pa, tickPhaseFun pid inc d t pb, ?_, ?_, ?_, ?_⟩
    · rw [show ({ s with engine := tickE pid d t s.engine } :
        SysState).engine.phases = (tickE pid d t s.engine).phases from rfl, hc, hph]
      rfl
    · rw [tickPhaseFun_id]; exact hpa
    · rw [tickPhaseFun_id]; exact hpb
    · rcases hcases with ⟨h1, h2, h3, h4⟩ | ⟨h1, h2, h3⟩ | ⟨h1, h2, h3, h4⟩ |
        ⟨h1, h2, h3⟩ | ⟨h1, h2, h3⟩
      · refine Or.inl ⟨h1, h2, ?_, ?_⟩
        · rw [tickPhaseFun_status_of_not_running (by rw [h3]; decide)]; exact h3
        · rw [tickPhaseFun_status_of_not_running (by rw [h4]; decide)]; exact h4
      · refine Or.inr (Or.inl ⟨h1, h2, ?_⟩)
        rw [tickPhaseFun_status_of_not_running (by rw [h3]; decide)]; exact h3
      · refine Or.inr (Or.inr (Or.inl ⟨h1, h2, ?_, ?_⟩))
        · rcases h3 with h3 | h3
          · exact Or.inl (by
              rw [tickPhaseFun_status_of_not_running (by rw [h3]; decide)]; exact h3)
          · exact Or.inr (by
              rw [tickPhaseFun_status_of_not_running (by rw [h3]; decide)]; exact h3)
        · rw [tickPhaseFun_status_of_not_running (by rw [h4]; decide)]; exact h4
      · refine Or.inr (Or.inr (Or.inr (Or.inl ⟨h1, h2, ?_⟩)))
        rcases h3 with h3 | h3
        · exact Or.inl (by
            rw [tickPhaseFun_status_of_not_running (by rw [h3]; decide)]; exact h3)
        · exact Or.inr (by
            rw [tickPhaseFun_status_of_not_running (by rw [h3]; decide)]; exact h3)
      · refine Or.inr (Or.inr (Or.inr (Or.inr ⟨h1, h2, ?_⟩)))
        rcases h3 with h3 | h3
        · exact Or.inl (by
            rw [tickPhaseFun_status_of_not_running (by rw [h3]; decide)]; exact h3)
        · exact Or.inr (by
            rw [tickPhaseFun_status_of_not_running (by rw [h3]; decide)]; exact h3)

theorem c6_inv_orch {a b : String} (hab : a ≠ b) (t : String) (s : SysState)
    (h : C6Inv a b s) : C6Inv a b (orchStep t s) := by
  obtain ⟨pa, pb, hph, hpa, hpb, hcases⟩ := h
  have hpbne : pb.id ≠ a := by rw [hpb]; exact hab.symm
  have hpane : pa.id ≠ b := by rw [hpa]; exact hab
  rcases hcases with ⟨h1, h2, h3, h4⟩ | ⟨h1, h2, h3⟩ | ⟨h1, h2, h3, h4⟩ |
    ⟨h1, h2, h3⟩ | ⟨h1, h2, h3⟩
  · -- queue [a, b], awaiting none, both pending: orchestrator starts a
    have hstep : orchStep t s =
        { engine := toggleE a t s.engine
          orch := { queue := [b], awaiting := some a } } := by
      unfold orchStep
      rw [h2]
      dsimp only
      rw [h1]
      dsimp only
      rw [hph, statusOf_pair_fst pa pb hpa, h3]
    rw [hstep]
    refine ⟨togglePhaseFun a t pa, pb, ?_, ?_, hpb,
      Or.inr (Or.inl ⟨rfl, rfl, h4⟩)⟩
    · show (toggleE a t s.engine).phases = _
      unfold toggleE
      dsimp only
      rw [hph, togglePhases_pair, togglePhaseFun_noop_of_ne hpbne]
    · rw [togglePhaseFun_id]; exact hpa
  · -- queue [b], awaiting a: resolve only once a is completed or failed
    rcases hsa : pa.status with _ | _ | _ | _ | _
    case running | pending | paused =>
      have hstep : orchStep t s = s := by
        unfold orchStep
        rw [h2]
        dsimp only
        rw [hph, statusOf_pair_fst pa pb hpa, hsa]
      rw [hstep]
      exact ⟨pa, pb, hph, hpa, hpb, Or.inr (Or.inl ⟨h1, h2, h3⟩)⟩
    case completed =>
      have hstep : orchStep t s = { s with orch := { s.orch with awaiting := none } } := by
        unfold orchStep
        rw [h2]
        dsimp only
        rw [hph, statusOf_pair_fst pa pb hpa, hsa]
      rw [hstep]
      exact ⟨pa, pb, hph, hpa, hpb,
        Or.inr (Or.inr (Or.inl ⟨h1, rfl, Or.inl hsa, h3⟩))⟩
    case failed =>
      have hstep : orchStep t s = { s with orch := { s.orch with awaiting := none } } := by
        unfold orchStep
        rw [h2]
        dsimp only
        rw [hph, statusOf_pair_fst pa pb hpa, hsa]
      rw [hstep]
      exact ⟨pa, pb, hph, hpa, hpb,
        Or.inr (Or.inr (Or.inl ⟨h1, rfl, Or.inr hsa, h3⟩))⟩
  · -- queue [b], awaiting none, a finished, b pending: orchestrator starts b
    have hstep : orchStep t s =
        { engine := toggleE b t s.engine
          orch := { queue := [], awaiting := some b } } := by
      unfold orchStep
      rw [h2]
      dsimp only
      rw [h1]
      dsimp only
      rw [hph, statusOf_pair_snd pa pb hpane hpb, h4]
    rw [hstep]
    refine ⟨pa, togglePhaseFun b t pb, ?_, hpa, ?_,
      Or.inr (Or.inr (Or.inr (Or.inl ⟨rfl, rfl, h3⟩)))⟩
    · show (toggleE b t s.engine).phases = _
      unfold toggleE
      dsimp only
      rw [hph, togglePhases_pair, togglePhaseFun_noop_of_ne hpane]
    · rw [togglePhaseFun_id]; exact hpb
  · -- queue [], awaiting b: resolve only once b is completed or failed
    rcases hsb : pb.status with _ | _ | _ | _ | _
    case running | pending | paused =>
      have hstep : orchStep t s = s := by
        unfold orchStep
        rw [h2]
        dsimp only
        rw [hph, statusOf_pair_snd pa pb hpane hpb, hsb]
      rw [hstep]
      exact ⟨pa, pb, hph, hpa, hpb, Or.inr (Or.inr (Or.inr (Or.inl ⟨h1, h2, h3⟩)))⟩
    case completed =>
      have hstep : orchStep t s = { s with orch := { s.orch with awaiting := none } } := by
        unfold orchStep
        rw [h2]
        dsimp only
        rw [hph, statusOf_pair_snd pa pb hpane hpb, hsb]
      rw [hstep]
      exact ⟨pa, pb, hph, hpa, hpb, Or.inr (Or.inr (Or.inr (Or.inr ⟨h1, rfl, h3⟩)))⟩
    case failed =>
      have hstep : orchStep t s = { s with orch := { s.orch with awaiting := none } } := by
        unfold orchStep
        rw [h2]
        dsimp only
        rw [hph, statusOf_pair_snd pa pb hpane hpb, hsb]
      rw [hstep]
      exact ⟨pa, pb, hph, hpa, hpb, Or.inr (Or.inr (Or.inr (Or.inr ⟨h1, rfl, h3⟩)))⟩
  · -- queue [], awaiting none: runAll has finished
    have hstep : orchStep t s = s := by
      unfold orchStep
      rw [h2]
      dsimp only
      rw [h1]
    rw [hstep]
    exact ⟨pa, pb, hph, hpa, hpb, Or.inr (Or.inr (Or.inr (Or.inr ⟨h1, h2, h3⟩)))⟩

theorem c6_inv_runSys {a b : String} (hab : a ≠ b) (es : List RunEvent)
    (s : SysState) (h : C6Inv a b s) : C6Inv a b (runSys es s) := by
  induction es generalizing s with
  | nil => exact h
  | cons e es ih =>
    cases e with
    | orch t => exact ih _ (c6_inv_orch hab t s h)
    | tick pid d t => exact ih _ (c6_inv_tick pid d t s h)

theorem c6_inv_init (A B : Phase) (tms : List String)
    (hA : A.status = PhaseStatus.pending) (hB : B.status = PhaseStatus.pending) :
    C6Inv A.id B.id (runAllInit ⟨[A, B], tms⟩) := by
  refine ⟨A, B, rfl, rfl, rfl, Or.inl ⟨?_, rfl, hA, hB⟩⟩
  simp [runAllInit, runAllSnapshot, hA, hB]

theorem c6_running_imp_pending {a b : String} (hab : a ≠ b) (s : SysState)
    (h : C6Inv a b s)
    (hrun : statusOf a s.engine.phases = some PhaseStatus.running) :
    statusOf b s.engine.phases = some PhaseStatus.pending := by
  obtain ⟨pa, pb, hph, hpa, hpb, hcases⟩ := h
  rw [hph] at hrun ⊢
  rw [statusOf_pair_fst pa pb hpa] at hrun
  have hpastat : pa.status = PhaseStatus.running := Option.some.inj hrun
  rw [statusOf_pair_snd pa pb (by rw [hpa]; exact hab) hpb]
  rcases hcases with ⟨h1, h2, h3, h4⟩ | ⟨h1, h2, h3⟩ | ⟨h1, h2, h3, h4⟩ |
    ⟨h1, h2, h3⟩ | ⟨h1, h2, h3⟩
  · rw [hpastat] at h3
    exact absurd h3 (by decide)
  · rw [h3]
  · rw [h4]
  · rcases h3 with h3 | h3 <;> rw [hpastat] at h3 <;> exact absurd h3 (by decide)
  · rcases h3 with h3 | h3 <;> rw [hpastat] at h3 <;> exact absurd h3 (by decide)

/-- C6: with two pending steps A then B, after runAllPhases takes its
snapshot, in every state reachable by orchestrator progress and interval
ticks alone, whenever A reads running, B still reads pending - B never
starts while A is running. -/
theorem run_all_sequential (A B : Phase) (tms : List String)
    (hA : A.status = PhaseStatus.pending) (hB : B.status = PhaseStatus.pending)
    (hab : A.id ≠ B.id) (es : List RunEvent)
    (hrun : statusOf A.id
        (runSys es (runAllInit ⟨[A, B], tms⟩)).engine.phases =
      some PhaseStatus.running) :
    statusOf B.id (runSys es (runAllInit ⟨[A, B], tms⟩)).engine.phases =
      some PhaseStatus.pending :=
  c6_running_imp_pending hab _
    (c6_inv_runSys hab es _ (c6_inv_init A B tms hA hB)) hrun

/-- Witness for C6: two concrete pending steps; after the orchestrator's
first move A is running and B is still pending. -/
theorem run_all_sequential_witness :
    statusOf "b" (runSys [RunEvent.orch "t"]
        (runAllInit ⟨[
          ⟨"a", "T", "A", "I", "C", "x", PhaseStatus.pending, 0, 10, none, [], true⟩,
          ⟨"b", "T", "B", "I", "C", "x", PhaseStatus.pending, 0, 10, none, [], true⟩],
          []⟩)).engine.phases = some PhaseStatus.pending :=
  run_all_sequential
    ⟨"a", "T", "A", "I", "C", "x", PhaseStatus.pending, 0, 10, none, [], true⟩
    ⟨"b", "T", "B", "I", "C", "x", PhaseStatus.pending, 0, 10, none, [], true⟩
    [] rfl rfl (by decide) [RunEvent.orch "t"] (by decide)
